import Mathlib

/-!
Verification of the cortexOS repository's developer tools:
the UDP multicast discovery listener (`tools/discovery_listener.py`),
the UDP broadcast listener (`tools/broadcast_listener.py`),
the multicast test sender (`tools/test_sender.py`), and the GitHub
issue-creation loop (`tools/create-issues.py`).

The scripts' behaviour is dominated by the Python standard library's
`json` module (`json.dumps` / `json.loads`) and `bytes.decode('utf-8')`,
so those library functions are embedded here at the level of detail the
scripts rely on:

* `Json` is the JSON value universe the scripts exchange.  JSON numbers
  carry `frac`/`exp` parts only in datagrams the scripts never produce;
  a parsed float literal is kept as its source text (`Json.floatLit`)
  instead of modelling IEEE doubles.  Python strings are modelled as
  Lean `String`s, i.e. sequences of Unicode scalar values (a Python
  `str` can additionally hold lone surrogates, which no well-formed
  UTF-8 datagram can produce).
* `serVal` models `json.dumps` with its default options
  (`ensure_ascii=True`, separators `", "` and `": "`).
* `parseVal` models `json.loads` (the strict decoder): whitespace
  handling, string escapes including surrogate pairs, the integer
  grammar `-?(0|[1-9][0-9]*)` with optional fraction/exponent, the
  `NaN`/`Infinity`/`-Infinity` constants, and last-wins duplicate-key
  semantics for objects.  The parser recurses on an explicit fuel which
  `jsonLoads` instantiates large enough that fuel can never run out on
  an input Python accepts.
* `utf8Encode` / `utf8Decode` model `str.encode('utf-8')` and strict
  `bytes.decode('utf-8')` (rejecting overlong forms, surrogates, and
  out-of-range sequences, as CPython's strict codec does).
-/

namespace CortexOS

/-- A JSON value as exchanged by the scripts.  `num` holds integers
(the only numbers the scripts produce); `floatLit` records the source
text of a float literal (`1.5`, `2e3`, `NaN`, ...) that `json.loads`
would turn into a Python float. -/
inductive Json where
  | null
  | bool (b : Bool)
  | num (n : Int)
  | str (s : String)
  | arr (xs : List Json)
  | obj (kvs : List (String × Json))
  | floatLit (text : String)

/-! ## The serializer: `json.dumps` with default options -/

/-- Lowercase hexadecimal digit characters, as produced by
`'\\u%04x' % n` in `json.encoder`. -/
def hexDigitChar : Nat → Char
  | 0 => '0' | 1 => '1' | 2 => '2' | 3 => '3' | 4 => '4'
  | 5 => '5' | 6 => '6' | 7 => '7' | 8 => '8' | 9 => '9'
  | 10 => 'a' | 11 => 'b' | 12 => 'c' | 13 => 'd' | 14 => 'e'
  | _ => 'f'

/-- Four hex digits of `n < 0x10000`, most significant first. -/
def hex4 (n : Nat) : List Char :=
  [hexDigitChar (n / 4096 % 16), hexDigitChar (n / 256 % 16),
   hexDigitChar (n / 16 % 16), hexDigitChar (n % 16)]

/-- One character escaped as `json.encoder.py_encode_basestring_ascii`
does with `ensure_ascii=True`: backslash and quote get two-character
escapes, printable ASCII (0x20–0x7e) passes through, the short escapes
cover `\b \f \n \r \t`, everything else becomes `\uXXXX` (a surrogate
pair for astral characters). -/
def escChar (c : Char) : List Char :=
  if c = '\\' then ['\\', '\\']
  else if c = '"' then ['\\', '"']
  else if 0x20 ≤ c.toNat ∧ c.toNat ≤ 0x7e then [c]
  else if c = '\x08' then ['\\', 'b']
  else if c = '\x0c' then ['\\', 'f']
  else if c = '\n' then ['\\', 'n']
  else if c = '\r' then ['\\', 'r']
  else if c = '\t' then ['\\', 't']
  else if c.toNat < 0x10000 then '\\' :: 'u' :: hex4 c.toNat
  else
    let m := c.toNat - 0x10000
    ('\\' :: 'u' :: hex4 (0xd800 + m / 0x400)) ++ ('\\' :: 'u' :: hex4 (0xdc00 + m % 0x400))

/-- A JSON string literal: quote, escaped characters, quote. -/
def serStr (s : String) : List Char :=
  '"' :: (s.data.flatMap escChar ++ ['"'])

/-- Base-10 digits of `n`, least significant first.  The fuel is only
there to make the recursion structural; `digitsLE` instantiates it
with `n` itself, which always suffices. -/
def digitsLEAux : Nat → Nat → List Nat
  | 0, _ => []
  | f + 1, n => if n = 0 then [] else n % 10 :: digitsLEAux f (n / 10)

/-- Base-10 digits of `n`, least significant first (empty for 0). -/
def digitsLE (n : Nat) : List Nat := digitsLEAux n n

/-- Decimal digits of `n`, most significant first (`repr` of a
non-negative Python int). -/
def natChars (n : Nat) : List Char :=
  if n = 0 then ['0'] else (digitsLE n).reverse.map hexDigitChar

/-- Decimal representation of an integer, with a leading minus sign for
negative values (`repr` of a Python int). -/
def intChars (i : Int) : List Char :=
  if i < 0 then '-' :: natChars i.natAbs else natChars i.natAbs

mutual
/-- The characters `json.dumps` emits for a value (default separators:
`", "` between items, `": "` after a key). -/
def serVal : Json → List Char
  | .null => 'n' :: ['u', 'l', 'l']
  | .bool true => 't' :: ['r', 'u', 'e']
  | .bool false => 'f' :: ['a', 'l', 's', 'e']
  | .num n => intChars n
  | .str s => serStr s
  | .arr xs => '[' :: (serItems xs ++ [']'])
  | .obj kvs => '\x7b' :: (serMembers kvs ++ ['\x7d'])
  | .floatLit t => t.data
/-- Array items joined by `", "`. -/
def serItems : List Json → List Char
  | [] => []
  | [x] => serVal x
  | x :: y :: ys => serVal x ++ ',' :: ' ' :: serItems (y :: ys)
/-- Object members `"key": value` joined by `", "`. -/
def serMembers : List (String × Json) → List Char
  | [] => []
  | [(k, v)] => serStr k ++ ':' :: ' ' :: serVal v
  | (k, v) :: kv :: kvs => serStr k ++ ':' :: ' ' :: serVal v ++ ',' :: ' ' :: serMembers (kv :: kvs)
end

/-- The string `json.dumps` returns. -/
def jsonDumps (v : Json) : String := ⟨serVal v⟩

/-! ## UTF-8: `str.encode('utf-8')` and strict `bytes.decode('utf-8')` -/

/-- UTF-8 encoding of one Unicode scalar value (1–4 bytes). -/
def utf8EncodeChar (c : Char) : List Nat :=
  let n := c.toNat
  if n < 0x80 then [n]
  else if n < 0x800 then [0xc0 + n / 0x40, 0x80 + n % 0x40]
  else if n < 0x10000 then [0xe0 + n / 0x1000, 0x80 + n / 0x40 % 0x40, 0x80 + n % 0x40]
  else [0xf0 + n / 0x40000, 0x80 + n / 0x1000 % 0x40, 0x80 + n / 0x40 % 0x40, 0x80 + n % 0x40]

/-- UTF-8 encoding of a string, as `s.encode('utf-8')` produces. -/
def utf8Encode (s : String) : List Nat := s.data.flatMap utf8EncodeChar

/-- Strict UTF-8 decoding (CPython's default error handler raises
`UnicodeDecodeError` on anything malformed: stray continuation bytes,
overlong forms, surrogates, code points beyond U+10FFFF, truncation).
`fuel` only bounds the recursion; one unit is spent per decoded
character, so `fuel = length` always suffices. -/
def utf8DecodeAux : Nat → List Nat → Option (List Char)
  | _, [] => some []
  | 0, _ :: _ => none
  | f + 1, b :: rest =>
    if b < 0x80 then (utf8DecodeAux f rest).map (Char.ofNat b :: ·)
    else if b < 0xc2 then none
    else if b < 0xe0 then
      match rest with
      | b2 :: rest2 =>
        if 0x80 ≤ b2 ∧ b2 < 0xc0 then
          (utf8DecodeAux f rest2).map (Char.ofNat ((b - 0xc0) * 0x40 + (b2 - 0x80)) :: ·)
        else none
      | [] => none
    else if b < 0xf0 then
      match rest with
      | b2 :: b3 :: rest3 =>
        if (0x80 ≤ b2 ∧ b2 < 0xc0) ∧ (0x80 ≤ b3 ∧ b3 < 0xc0) ∧
            (b = 0xe0 → 0xa0 ≤ b2) ∧ (b = 0xed → b2 < 0xa0) then
          (utf8DecodeAux f rest3).map
            (Char.ofNat ((b - 0xe0) * 0x1000 + (b2 - 0x80) * 0x40 + (b3 - 0x80)) :: ·)
        else none
      | _ => none
    else if b < 0xf5 then
      match rest with
      | b2 :: b3 :: b4 :: rest4 =>
        if (0x80 ≤ b2 ∧ b2 < 0xc0) ∧ (0x80 ≤ b3 ∧ b3 < 0xc0) ∧ (0x80 ≤ b4 ∧ b4 < 0xc0) ∧
            (b = 0xf0 → 0x90 ≤ b2) ∧ (b = 0xf4 → b2 < 0x90) then
          (utf8DecodeAux f rest4).map
            (Char.ofNat ((b - 0xf0) * 0x40000 + (b2 - 0x80) * 0x1000 +
              (b3 - 0x80) * 0x40 + (b4 - 0x80)) :: ·)
        else none
      | _ => none
    else none

/-- The result of `data.decode('utf-8')`: `none` models a raised
`UnicodeDecodeError`. -/
def utf8Decode (bs : List Nat) : Option String :=
  (utf8DecodeAux bs.length bs).map fun cs => ⟨cs⟩

/-! ## The parser: `json.loads` (strict decoder) -/

/-- JSON whitespace, the characters of `json.decoder.WHITESPACE_STR`
(space, tab, newline, carriage return, by code point). -/
def isWsChar (c : Char) : Bool :=
  c.toNat = 32 || c.toNat = 9 || c.toNat = 10 || c.toNat = 13

/-- Drop leading JSON whitespace (the `_w(s, idx).end()` skips). -/
def skipWs : List Char → List Char
  | [] => []
  | c :: cs => if isWsChar c then skipWs cs else c :: cs

/-- ASCII decimal digit test (`[0-9]`, by code point). -/
def isDigitChar (c : Char) : Bool := 48 ≤ c.toNat && c.toNat ≤ 57

/-- Numeric value of a decimal digit character. -/
def digitVal (c : Char) : Nat := c.toNat - 48

/-- Split off the longest leading run of decimal digits. -/
def takeDigits : List Char → List Char × List Char
  | [] => ([], [])
  | c :: cs =>
    if isDigitChar c then
      let (ds, r) := takeDigits cs
      (c :: ds, r)
    else ([], c :: cs)

/-- The value of a digit run, most significant digit first. -/
def digitsToNat (ds : List Char) : Nat :=
  ds.foldl (fun a c => a * 10 + digitVal c) 0

/-- Hexadecimal digit value, as in `json.decoder` string escapes
(`[0-9]`, `[a-f]`, `[A-F]`, by code point). -/
def hexVal (c : Char) : Option Nat :=
  if 48 ≤ c.toNat ∧ c.toNat ≤ 57 then some (c.toNat - 48)
  else if 97 ≤ c.toNat ∧ c.toNat ≤ 102 then some (c.toNat - 97 + 10)
  else if 65 ≤ c.toNat ∧ c.toNat ≤ 70 then some (c.toNat - 65 + 10)
  else none

/-- Read exactly four hex digits (the `XXXX` of a `\uXXXX` escape). -/
def readHex4 : List Char → Option (Nat × List Char)
  | a :: b :: c :: d :: rest =>
    match hexVal a, hexVal b, hexVal c, hexVal d with
    | some va, some vb, some vc, some vd => some (((va * 16 + vb) * 16 + vc) * 16 + vd, rest)
    | _, _, _, _ => none
  | _ => none

/-- The two-character escapes of `json.decoder.BACKSLASH`. -/
def simpleEscape : Char → Option Char
  | '"' => some '"'
  | '\\' => some '\\'
  | '/' => some '/'
  | 'b' => some '\x08'
  | 'f' => some '\x0c'
  | 'n' => some '\n'
  | 'r' => some '\r'
  | 't' => some '\t'
  | _ => none

/-- Parse a string body after the opening quote, as `py_scanstring`
does in strict mode: unescaped control characters are rejected, `\u`
escapes are decoded with surrogate-pair combination.  A lone surrogate
escape would produce a non-scalar Python string, which this model's
`String` cannot hold, so it is rejected here; no output of
`json.dumps` on scalar strings contains one.  One fuel unit is spent
per decoded character. -/
def parseStrChars : Nat → List Char → Option (List Char × List Char)
  | 0, _ => none
  | f + 1, cs =>
    match cs with
    | [] => none
    | c :: rest =>
      if c = '"' then some ([], rest)
      else if c = '\\' then
        match rest with
        | [] => none
        | e :: r =>
          if e = 'u' then
            match readHex4 r with
            | none => none
            | some (h1, r1) =>
              if h1 < 0xd800 ∨ 0xe000 ≤ h1 then
                (parseStrChars f r1).map fun pr => (Char.ofNat h1 :: pr.1, pr.2)
              else if h1 < 0xdc00 then
                match r1 with
                | a :: b :: r2 =>
                  if a = '\\' ∧ b = 'u' then
                    match readHex4 r2 with
                    | some (h2, r3) =>
                      if 0xdc00 ≤ h2 ∧ h2 < 0xe000 then
                        (parseStrChars f r3).map fun pr =>
                          (Char.ofNat (0x10000 + (h1 - 0xd800) * 0x400 + (h2 - 0xdc00)) :: pr.1,
                            pr.2)
                      else none
                    | none => none
                  else none
                | _ => none
              else none
          else
            match simpleEscape e with
            | some ce => (parseStrChars f r).map fun pr => (ce :: pr.1, pr.2)
            | none => none
      else if c.toNat < 0x20 then none
      else (parseStrChars f rest).map fun pr => (c :: pr.1, pr.2)

/-- The integer group `(0|[1-9][0-9]*)`, given its (digit) first
character: a leading `0` matches alone, otherwise the digit run is
maximal.  Returns the matched digits and the remainder. -/
def numIntPart (c : Char) (r : List Char) : List Char × List Char :=
  if c = '0' then ([c], r)
  else
    let p := takeDigits r
    (c :: p.1, p.2)

/-- The optional fraction group `(\.[0-9]+)?`: a dot matches only if at
least one digit follows it. -/
def numFracPart (r2 : List Char) : List Char × List Char :=
  match r2 with
  | c2 :: rf =>
    if c2 = '.' then
      let p := takeDigits rf
      if p.1 = [] then ([], r2) else ('.' :: p.1, p.2)
    else ([], r2)
  | [] => ([], r2)

/-- The optional exponent group `([eE][-+]?[0-9]+)?`: `e`/`E`, an
optional sign, then at least one digit. -/
def numExpPart (r3 : List Char) : List Char × List Char :=
  match r3 with
  | e :: re =>
    if e = 'e' ∨ e = 'E' then
      let (sgn, re1) : List Char × List Char := match re with
        | '+' :: rs => (['+'], rs)
        | '-' :: rs => (['-'], rs)
        | _ => ([], re)
      let p := takeDigits re1
      if p.1 = [] then ([], r3) else (e :: (sgn ++ p.1), p.2)
    else ([], r3)
  | [] => ([], r3)

/-- Match `json.decoder.NUMBER_RE`
(`-?(0|[1-9][0-9]*)(\.[0-9]+)?([eE][-+]?[0-9]+)?`) at the head of the
input.  An integer match yields `Json.num`; a match with a fraction or
exponent part yields `Json.floatLit` carrying the matched text. -/
def parseNumTok (cs : List Char) : Option (Json × List Char) :=
  let (neg, cs1) : Bool × List Char := match cs with
    | c0 :: r0 => if c0 = '-' then (true, r0) else (false, cs)
    | [] => (false, cs)
  match cs1 with
  | c :: r =>
    if isDigitChar c then
      let (intDs, r2) := numIntPart c r
      let (fracDs, r3) := numFracPart r2
      let (expDs, r4) := numExpPart r3
      if fracDs = [] ∧ expDs = [] then
        some (.num (if neg then -(digitsToNat intDs : Int) else (digitsToNat intDs : Int)), r2)
      else
        some (.floatLit ⟨(if neg then ['-'] else []) ++ intDs ++ fracDs ++ expDs⟩, r4)
    else none
  | [] => none

/-- Insert into the assoc list modelling a Python dict: an existing key
keeps its position and takes the new value, a new key is appended. -/
def insertKV : List (String × Json) → String → Json → List (String × Json)
  | [], k, v => [(k, v)]
  | (k1, v1) :: rest, k, v =>
    if k1 = k then (k1, v) :: rest
    else (k1, v1) :: insertKV rest k v

/-- Build the dict from parsed members in order, last value winning for
duplicate keys, as `dict` construction does in the scanner. -/
def buildObj (kvs : List (String × Json)) : List (String × Json) :=
  kvs.foldl (fun acc kv => insertKV acc kv.1 kv.2) []

mutual
/-- One JSON value, as `_scan_once` dispatches on the first non-blank
character: string, object, array, the keyword literals, and lastly the
number regex followed by the `NaN`/`Infinity`/`-Infinity` constants.
Fuel only bounds recursion; at least one input character is consumed
for every two units spent. -/
def parseVal : Nat → List Char → Option (Json × List Char)
  | 0, _ => none
  | f + 1, cs =>
    match skipWs cs with
    | [] => none
    | c :: r =>
      if c = '"' then
        (parseStrChars f r).map (fun pr => (.str ⟨pr.1⟩, pr.2))
      else if c = '\x7b' then
        let r2 := skipWs r
        if r2.head? = some '\x7d' then some (.obj [], r2.tail)
        else (parseMembers f r2).map (fun pr => (.obj (buildObj pr.1), pr.2))
      else if c = '[' then
        let r2 := skipWs r
        if r2.head? = some ']' then some (.arr [], r2.tail)
        else (parseItems f r2).map (fun pr => (.arr pr.1, pr.2))
      else if c = 'n' then
        match r with
        | 'u' :: 'l' :: 'l' :: r2 => some (.null, r2)
        | _ => none
      else if c = 't' then
        match r with
        | 'r' :: 'u' :: 'e' :: r2 => some (.bool true, r2)
        | _ => none
      else if c = 'f' then
        match r with
        | 'a' :: 'l' :: 's' :: 'e' :: r2 => some (.bool false, r2)
        | _ => none
      else if c = 'N' then
        match r with
        | 'a' :: 'N' :: r2 => some (.floatLit "NaN", r2)
        | _ => none
      else if c = 'I' then
        match r with
        | 'n' :: 'f' :: 'i' :: 'n' :: 'i' :: 't' :: 'y' :: r2 => some (.floatLit "Infinity", r2)
        | _ => none
      else
        match parseNumTok (c :: r) with
        | some res => some res
        | none =>
          match c :: r with
          | '-' :: 'I' :: 'n' :: 'f' :: 'i' :: 'n' :: 'i' :: 't' :: 'y' :: r2 =>
            some (.floatLit "-Infinity", r2)
          | _ => none
/-- One-or-more comma-separated array items (the empty array is
recognised in `parseVal`). -/
def parseItems : Nat → List Char → Option (List Json × List Char)
  | 0, _ => none
  | f + 1, cs =>
    match parseVal f cs with
    | none => none
    | some (v, r) =>
      match skipWs r with
      | ',' :: r2 => (parseItems f r2).map (fun pr => (v :: pr.1, pr.2))
      | ']' :: r2 => some ([v], r2)
      | _ => none
/-- One-or-more `"key": value` members (the empty object is recognised
in `parseVal`); returns the members in source order. -/
def parseMembers : Nat → List Char → Option (List (String × Json) × List Char)
  | 0, _ => none
  | f + 1, cs =>
    match skipWs cs with
    | '"' :: r =>
      match parseStrChars f r with
      | none => none
      | some (key, r1) =>
        match skipWs r1 with
        | ':' :: r2 =>
          match parseVal f r2 with
          | none => none
          | some (v, r3) =>
            match skipWs r3 with
            | ',' :: r4 => (parseMembers f r4).map (fun pr => ((⟨key⟩, v) :: pr.1, pr.2))
            | '\x7d' :: r4 => some ([(⟨key⟩, v)], r4)
            | _ => none
        | _ => none
    | _ => none
end

/-- The result of `json.loads(s)`: `none` models a raised
`json.JSONDecodeError` (including the "Extra data" error for trailing
non-whitespace).  The fuel `2 * length + 2` can never be exhausted on
an input the decoder accepts, since at least one character is consumed
for every two units spent. -/
def jsonLoads (s : String) : Option Json :=
  match parseVal (2 * s.data.length + 2) s.data with
  | some (v, r) => if skipWs r = [] then some v else none
  | none => none

/-! ## Payload well-formedness

A value is a faithful image of a Python value passed to `json.dumps`
when it contains no float literal (the scripts only use ints) and no
object has duplicate keys (a Python dict cannot).  These are exactly
the payloads the spec's round-trip property quantifies over. -/

/-- No two members of an object share a key (a Python dict, by
construction, never does). -/
def keysNodup : List (String × Json) → Bool
  | [] => true
  | kv :: kvs => !(kvs.any fun p => p.1 == kv.1) && keysNodup kvs

mutual
/-- A JSON-representable `PeerAnnouncement` payload: integer numbers
only and duplicate-free object keys, at every level. -/
def wfPayload : Json → Bool
  | .null => true
  | .bool _ => true
  | .num _ => true
  | .str _ => true
  | .arr xs => wfList xs
  | .obj kvs => keysNodup kvs && wfPairs kvs
  | .floatLit _ => false
/-- Every element of an array is well-formed. -/
def wfList : List Json → Bool
  | [] => true
  | x :: xs => wfPayload x && wfList xs
/-- Every member value of an object is well-formed. -/
def wfPairs : List (String × Json) → Bool
  | [] => true
  | kv :: kvs => wfPayload kv.2 && wfPairs kvs
end

/-- The listener's decode pipeline, `json.loads(data.decode('utf-8'))`:
UTF-8 decode, then JSON parse.  `none` stands for either exception. -/
def decodeBytes (bs : List Nat) : Option Json :=
  match utf8Decode bs with
  | some s => jsonLoads s
  | none => none

/-! ## The listeners: `discovery_listener.main` and
`broadcast_listener.main`

Both scripts run the same receive loop: `recvfrom`, decode UTF-8,
`json.loads`, print the decoded message ("discovered node") or, on
`json.JSONDecodeError` only, print the raw bytes.  A `KeyboardInterrupt`
raised in `recvfrom` breaks the loop.  The loop is driven here by a
finite script of receive events; an exhausted script corresponds to the
program still blocked in `recvfrom`. -/

/-- A peer socket address as `recvfrom` reports it. -/
structure Addr where
  ip : String
  port : Nat
deriving DecidableEq

/-- A datagram payload: the byte values `recvfrom` returned. -/
abbrev Bytes := List Nat

/-- What one loop iteration reports to the console. -/
inductive LEvent where
  | announce (msg : Json) (sender : Addr)
  | raw (data : Bytes) (sender : Addr)

/-- The exceptions relevant to the scripts.  `unicodeDecodeError` is
raised by `bytes.decode` and is *not* a `json.JSONDecodeError`
subclass, so the listeners' `except json.JSONDecodeError` does not
catch it. -/
inductive PyErr where
  | unicodeDecodeError
  | osError (msg : String)
deriving DecidableEq

/-- One `recvfrom` outcome supplied by the environment. -/
inductive RecvEvent where
  | datagram (data : Bytes) (sender : Addr)
  | interrupt

/-- The body of one loop iteration for a received datagram, shared by
both listeners (`msg = json.loads(data.decode('utf-8'))` under
`except json.JSONDecodeError`): a decoded message is printed as a
discovered node, a JSON error yields the raw-data print, and a UTF-8
error escapes uncaught. -/
def handleDatagram (data : Bytes) (sender : Addr) : Except PyErr LEvent :=
  match utf8Decode data with
  | none => .error .unicodeDecodeError
  | some s =>
    match jsonLoads s with
    | some msg => .ok (.announce msg sender)
    | none => .ok (.raw data sender)

/-- How the `while True` loop ends (or fails to). -/
inductive Outcome where
  | interrupted
  | crashed (e : PyErr)
  | starved
deriving DecidableEq

/-- A finished (or starved) run of the receive loop. -/
structure LoopResult where
  events : List LEvent
  attempts : Nat
  outcome : Outcome

/-- Run the receive loop over a finite event script.  `attempts`
counts the `recvfrom` calls made. -/
def runLoop : List RecvEvent → LoopResult
  | [] => ⟨[], 0, .starved⟩
  | .interrupt :: _ => ⟨[], 1, .interrupted⟩
  | .datagram d a :: rest =>
    match handleDatagram d a with
    | .error e => ⟨[], 1, .crashed e⟩
    | .ok ev =>
      let r := runLoop rest
      ⟨ev :: r.events, r.attempts + 1, r.outcome⟩

/-- How `main` itself ends: a normal return, an uncaught exception, or
still blocked in `recvfrom` when the event script ran out. -/
inductive MainOutcome where
  | returned
  | raised (e : PyErr)
  | blocked
deriving DecidableEq

/-- An observed run of a listener's `main`.  The console prints are
split by role: `banner` before the loop, `diag` for bind-failure
diagnostics, `events` for the per-datagram prints. -/
structure MainResult where
  banner : List String
  diag : List String
  events : List LEvent
  attempts : Nat
  outcome : MainOutcome

/-- Module constant `MCAST_GRP` of the discovery scripts. -/
def MCAST_GRP : String := "239.255.70.77"

/-- Module constant `MCAST_PORT` of the discovery scripts. -/
def MCAST_PORT : Nat := 7077

/-- Module constant `PORT` of the broadcast listener. -/
def PORT : Nat := 7077

/-- The discovery listener's startup print. -/
def discoveryBanner : List String :=
  ["🎧 Listening for CortexOS discovery on " ++ MCAST_GRP ++ ":" ++
    toString MCAST_PORT ++ "..."]

/-- Lift a loop outcome to the enclosing `main`: a `KeyboardInterrupt`
breaks the loop and `main` returns; any other exception propagates. -/
def MainOutcome.ofLoop : Outcome → MainOutcome
  | .interrupted => .returned
  | .crashed e => .raised e
  | .starved => .blocked

/-- `discovery_listener.main`: `sock.bind(('', MCAST_PORT))` is not
wrapped in any handler, so a bind `OSError` propagates out of `main`
before the banner print and before any `recvfrom`. -/
def discoveryMain (bindRes : Except String Unit) (script : List RecvEvent) : MainResult :=
  match bindRes with
  | .error m => ⟨[], [], [], 0, .raised (.osError m)⟩
  | .ok _ =>
    let r := runLoop script
    ⟨discoveryBanner, [], r.events, r.attempts, .ofLoop r.outcome⟩

/-- The two diagnostics `broadcast_listener.main` prints when
`sock.bind` raises `OSError` (the second line is a plain, non-f-string
in the source, so `\x7bPORT\x7d` appears literally). -/
def broadcastBindDiag (e : String) : List String :=
  ["❌ Erro ao fazer bind na porta " ++ toString PORT ++ ": " ++ e,
   "Verifique se outro listener não está rodando (use \x27lsof -i :\x7bPORT\x7d\x27)"]

/-- The broadcast listener's startup prints. -/
def broadcastBanner : List String :=
  ["📡 Escutando por Broadcasts do CortexOS na porta " ++ toString PORT ++ "...",
   "   (Certifique-se que o iPhone e o Mac estão no MESMO Wi-Fi)"]

/-- `broadcast_listener.main`: the bind is wrapped in
`try/except OSError`, which prints two diagnostics and returns before
any `recvfrom`.  (On `KeyboardInterrupt` it additionally prints
"Parando..." before breaking; the loop events are otherwise identical
to the discovery listener's.) -/
def broadcastMain (bindRes : Except String Unit) (script : List RecvEvent) : MainResult :=
  match bindRes with
  | .error m => ⟨[], broadcastBindDiag m, [], 0, .returned⟩
  | .ok _ =>
    let r := runLoop script
    ⟨broadcastBanner, [], r.events, r.attempts, .ofLoop r.outcome⟩

/-! ## The sender: `test_sender.py`

The script is straight-line: create the socket, set
`IP_MULTICAST_TTL` to 2, build the JSON message, send it once to
`(MCAST_GRP, MCAST_PORT)`, and exit.  Its socket operations are
modelled as the ordered trace `senderOps`. -/

/-- Socket options the scripts set (symbolic, since the numeric
`setsockopt` constants are platform-specific). -/
inductive SockOptName where
  | reuseAddr
  | multicastTTL
  | addMembership
deriving DecidableEq

/-- One operation on the sender's UDP socket. -/
inductive SockOp where
  | setsockopt (opt : SockOptName) (value : Nat)
  | sendto (data : Bytes) (dest : Addr)
deriving DecidableEq

/-- Whether an operation transmits a datagram. -/
def SockOp.isSend : SockOp → Bool
  | .sendto _ _ => true
  | _ => false

/-- The fields of the sender's announcement dict, in source order. -/
def senderPayloadFields : List (String × Json) :=
  [("cortex", .bool true), ("node_id", .str "TEST_SENDER"),
   ("type", .str "discovery"), ("agents", .num 1)]

/-- The dict the sender passes to `json.dumps`. -/
def senderPayload : Json := .obj senderPayloadFields

/-- The ordered socket-operation trace of one run of `test_sender.py`:
`setsockopt(IPPROTO_IP, IP_MULTICAST_TTL, 2)`, then one
`sendto(msg.encode('utf-8'), (MCAST_GRP, MCAST_PORT))`. -/
def senderOps : List SockOp :=
  [.setsockopt .multicastTTL 2,
   .sendto (utf8Encode (jsonDumps senderPayload)) ⟨MCAST_GRP, MCAST_PORT⟩]

/-- The datagrams a run of the sender transmits, in order. -/
def senderSends : List (Bytes × Addr) :=
  senderOps.filterMap fun op => match op with
    | .sendto d a => some (d, a)
    | _ => none

/-! ## The issue-creation tool: `create-issues.py`

The creation loop (`main`, after confirmation) walks the static `PRS`
list in order; per record it makes exactly one
`repo.create_issue(title=..., body=..., labels=...)` call inside
`try/except Exception`, incrementing `created` or `failed` and moving
on.  The GitHub client is the external collaborator, modelled as a
function from the call's arguments to a handle or an error. -/

/-- The `PR` dataclass of `create-issues.py`. -/
structure PR where
  number : Nat
  title : String
  milestone : String
  priority : String
  size : String
  duration : String
  description : String
  dependencies : List Nat
  tasks : List String
  labels : List String

/-- What a successful `create_issue` call returns (the script only
uses `issue.html_url`). -/
structure IssueHandle where
  html_url : String
deriving DecidableEq

/-- The issue title, `f"PR #\x7bpr.number\x7d: \x7bpr.title\x7d"`. -/
def issueTitle (pr : PR) : String :=
  "PR #" ++ toString pr.number ++ ": " ++ pr.title

/-- `create_issue_body`: the markdown body generated for a record. -/
def createIssueBody (pr : PR) : String :=
  let depsText :=
    if pr.dependencies = [] then "None"
    else String.intercalate "\n" (pr.dependencies.map fun dep => "- [ ] PR #" ++ toString dep)
  let tasksText := String.intercalate "\n" (pr.tasks.map fun task => "- [ ] " ++ task)
  "## Overview\n\n**Milestone**: " ++ pr.milestone ++
  "\n**Priority**: " ++ pr.priority ++
  "\n**Estimated Size**: " ++ pr.size ++
  "\n**Estimated Duration**: " ++ pr.duration ++
  "\n\n## Description\n\n" ++ pr.description ++
  "\n\n## Dependencies\n\n**Blocked by**:\n" ++ depsText ++
  "\n\n## Tasks\n\n" ++ tasksText ++
  "\n\n## Acceptance Criteria\n\n" ++
  "- [ ] Implementation complete\n" ++
  "- [ ] Unit tests added and passing\n" ++
  "- [ ] Integration tests passing\n" ++
  "- [ ] Documentation updated\n" ++
  "- [ ] CI checks passing\n" ++
  "- [ ] Code review completed\n" ++
  "- [ ] Security review completed (if applicable)\n" ++
  "- [ ] Performance validated (if applicable)\n" ++
  "- [ ] WASI build passes (if applicable)\n\n## References\n\n" ++
  "- See [PR_BREAKDOWN.md](https://github.com/therenansimoes/cortexOS/blob/main/PR_BREAKDOWN.md) for complete details\n" ++
  "- See [WORK_PLAN.md](https://github.com/therenansimoes/cortexOS/blob/main/WORK_PLAN.md) for schedule\n"

/-- The loop's observable state: the two counters of the script, plus
the tracker-side list of issues that exist after the calls so far, and
the titles of every `create_issue` attempt in call order. -/
structure IssueRun where
  created : Nat
  failed : Nat
  createdIssues : List IssueHandle
  calls : List String
deriving DecidableEq

/-- The creation loop of `main`: one `create_issue` attempt per record
of the list, in order; a success appends the handle and bumps
`created`, a failure bumps `failed`; either way the loop proceeds to
the next record. -/
def createIssuesLoop (api : String → String → List String → Except String IssueHandle) :
    List PR → IssueRun → IssueRun
  | [], st => st
  | pr :: rest, st =>
    match api (issueTitle pr) (createIssueBody pr) pr.labels with
    | .ok h =>
      createIssuesLoop api rest
        ⟨st.created + 1, st.failed, st.createdIssues ++ [h], st.calls ++ [issueTitle pr]⟩
    | .error _ =>
      createIssuesLoop api rest
        ⟨st.created, st.failed + 1, st.createdIssues, st.calls ++ [issueTitle pr]⟩

/-! ## Character-level lemmas -/

/-- Every `Char` carries a Unicode scalar value: below the surrogate
block or above it and below `0x110000`. -/
theorem char_scalar (c : Char) :
    c.toNat < 0xd800 ∨ (0xe000 ≤ c.toNat ∧ c.toNat < 0x110000) := by
  have h := c.valid
  simp only [UInt32.isValidChar, Nat.isValidChar] at h
  simp only [Char.toNat]
  omega

/-- Characters with distinct code points are distinct. -/
theorem char_ne_of_toNat_ne {a b : Char} (h : a.toNat ≠ b.toNat) : a ≠ b :=
  fun e => h (by rw [e])

/-- Unfolding of the digit test. -/
theorem isDigitChar_iff {c : Char} :
    isDigitChar c = true ↔ 48 ≤ c.toNat ∧ c.toNat ≤ 57 := by
  simp [isDigitChar]

/-- A digit character differs from any character whose code point is
outside the digit range. -/
theorem digit_ne {c d : Char} (h : isDigitChar c = true)
    (hd : d.toNat < 48 ∨ 57 < d.toNat) : c ≠ d := by
  have hc := isDigitChar_iff.mp h
  exact char_ne_of_toNat_ne (by omega)

/-- Digit characters are not JSON whitespace. -/
theorem digit_not_ws {c : Char} (h : isDigitChar c = true) : isWsChar c = false := by
  have hc := isDigitChar_iff.mp h
  simp [isWsChar]
  omega

/-- Each decimal-digit character produced by `hexDigitChar` is a digit
and carries its value. -/
theorem hexDigitChar_digit {d : Nat} (h : d < 10) :
    isDigitChar (hexDigitChar d) = true ∧ digitVal (hexDigitChar d) = d := by
  interval_cases d <;> exact ⟨rfl, rfl⟩

/-- `hexDigitChar` maps a nonzero decimal digit away from `'0'`. -/
theorem hexDigitChar_ne_zero {d : Nat} (h : d < 10) (h0 : d ≠ 0) :
    hexDigitChar d ≠ '0' := by
  interval_cases d <;> simp_all <;> decide

/-- `hexVal` inverts `hexDigitChar` on hex digits. -/
theorem hexVal_hexDigitChar {d : Nat} (h : d < 16) :
    hexVal (hexDigitChar d) = some d := by
  interval_cases d <;> decide

/-- `readHex4` reads back the four digits `hex4` wrote. -/
theorem readHex4_hex4 {n : Nat} (h : n < 0x10000) (rest : List Char) :
    readHex4 (hex4 n ++ rest) = some (n, rest) := by
  have h1 : n / 4096 % 16 < 16 := Nat.mod_lt _ (by omega)
  have h2 : n / 256 % 16 < 16 := Nat.mod_lt _ (by omega)
  have h3 : n / 16 % 16 < 16 := Nat.mod_lt _ (by omega)
  have h4 : n % 16 < 16 := Nat.mod_lt _ (by omega)
  simp only [hex4, List.cons_append, List.nil_append, readHex4,
    hexVal_hexDigitChar h1, hexVal_hexDigitChar h2,
    hexVal_hexDigitChar h3, hexVal_hexDigitChar h4]
  have : ((n / 4096 % 16 * 16 + n / 256 % 16) * 16 + n / 16 % 16) * 16 + n % 16 = n := by
    omega
  rw [this]

/-! ## String-body round trip -/

/-- Parsing a surrogate-pair escape `\uHHHH\uLLLL` combines the two
halves into one astral character. -/
theorem psc_u_pair (f : Nat) (H L : Nat) (rest : List Char)
    (hH : 0xd800 ≤ H ∧ H < 0xdc00) (hL : 0xdc00 ≤ L ∧ L < 0xe000) :
    parseStrChars (f + 1) ('\\' :: 'u' :: (hex4 H ++ ('\\' :: 'u' :: (hex4 L ++ rest)))) =
      (parseStrChars f rest).map fun pr =>
        (Char.ofNat (0x10000 + (H - 0xd800) * 0x400 + (L - 0xdc00)) :: pr.1, pr.2) := by
  simp only [parseStrChars, if_neg (by decide : ¬ '\\' = '"'),
    if_pos (rfl : '\\' = '\\'), if_pos (rfl : 'u' = 'u'),
    readHex4_hex4 (by omega : H < 0x10000),
    if_neg (by omega : ¬(H < 0xd800 ∨ 0xe000 ≤ H)),
    if_pos (by omega : H < 0xdc00),
    if_pos (⟨rfl, rfl⟩ : '\\' = '\\' ∧ 'u' = 'u'),
    readHex4_hex4 (by omega : L < 0x10000),
    if_pos (by omega : 0xdc00 ≤ L ∧ L < 0xe000)]
  simp

/-- Parsing a single `\uXXXX` escape of a non-surrogate value yields
that character. -/
theorem psc_u_single (f : Nat) (H : Nat) (rest : List Char)
    (hH : H < 0xd800 ∨ (0xe000 ≤ H ∧ H < 0x10000)) :
    parseStrChars (f + 1) ('\\' :: 'u' :: (hex4 H ++ rest)) =
      (parseStrChars f rest).map fun pr => (Char.ofNat H :: pr.1, pr.2) := by
  simp only [parseStrChars, if_neg (by decide : ¬ '\\' = '"'),
    if_pos (rfl : '\\' = '\\'), if_pos (rfl : 'u' = 'u'),
    readHex4_hex4 (by omega : H < 0x10000),
    if_pos (by omega : H < 0xd800 ∨ 0xe000 ≤ H)]
  simp

/-- Parsing one escaped character undoes `escChar` and continues with
the remainder, costing one unit of fuel. -/
theorem parseStrChars_escChar (c : Char) (f : Nat) (rest : List Char) :
    parseStrChars (f + 1) (escChar c ++ rest)
      = (parseStrChars f rest).map fun pr => (c :: pr.1, pr.2) := by
  by_cases h1 : c = '\\'
  · subst h1; rfl
  by_cases h2 : c = '"'
  · subst h2; rfl
  by_cases h3 : 0x20 ≤ c.toNat ∧ c.toNat ≤ 0x7e
  · have hesc : escChar c = [c] := by
      simp [escChar, h1, h2, h3]
    have hq : ¬c = '"' := h2
    have hb : ¬c = '\\' := h1
    rw [hesc]
    simp only [List.cons_append, List.nil_append, parseStrChars, if_neg hq, if_neg hb,
      if_neg (by omega : ¬c.toNat < 0x20)]
  by_cases h4 : c = '\x08'
  · subst h4; rfl
  by_cases h5 : c = '\x0c'
  · subst h5; rfl
  by_cases h6 : c = '\n'
  · subst h6; rfl
  by_cases h7 : c = '\r'
  · subst h7; rfl
  by_cases h8 : c = '\t'
  · subst h8; rfl
  by_cases h9 : c.toNat < 0x10000
  · -- single `\uXXXX` escape for a BMP scalar value
    have hesc : escChar c = '\\' :: 'u' :: hex4 c.toNat := by
      simp [escChar, h1, h2, h3, h4, h5, h6, h7, h8, h9]
    have hscalar := char_scalar c
    rw [hesc, show '\\' :: 'u' :: hex4 c.toNat ++ rest
        = '\\' :: 'u' :: (hex4 c.toNat ++ rest) from by simp,
      psc_u_single f c.toNat rest (by omega), Char.ofNat_toNat]
  · -- surrogate-pair escape for an astral scalar value
    have hscalar := char_scalar c
    have hesc : escChar c =
        ('\\' :: 'u' :: hex4 (0xd800 + (c.toNat - 0x10000) / 0x400)) ++
          ('\\' :: 'u' :: hex4 (0xdc00 + (c.toNat - 0x10000) % 0x400)) := by
      simp [escChar, h1, h2, h3, h4, h5, h6, h7, h8, h9]
    have hhi : (c.toNat - 0x10000) / 0x400 < 0x400 := by omega
    have hlo : (c.toNat - 0x10000) % 0x400 < 0x400 := Nat.mod_lt _ (by omega)
    rw [hesc, show (('\\' :: 'u' :: hex4 (0xd800 + (c.toNat - 0x10000) / 0x400)) ++
          ('\\' :: 'u' :: hex4 (0xdc00 + (c.toNat - 0x10000) % 0x400))) ++ rest
        = '\\' :: 'u' :: (hex4 (0xd800 + (c.toNat - 0x10000) / 0x400) ++
            ('\\' :: 'u' :: (hex4 (0xdc00 + (c.toNat - 0x10000) % 0x400) ++ rest)))
        from by simp,
      psc_u_pair f _ _ rest (by omega) (by omega)]
    have hcomb : 0x10000 + (0xd800 + (c.toNat - 0x10000) / 0x400 - 0xd800) * 0x400 +
        (0xdc00 + (c.toNat - 0x10000) % 0x400 - 0xdc00) = c.toNat := by
      omega
    rw [hcomb, Char.ofNat_toNat]

/-- Parsing an escaped character run stops at the closing quote and
returns the original characters; fuel covers one unit per character
plus one for the quote. -/
theorem parseStrChars_ser (l : List Char) :
    ∀ (f : Nat) (rest : List Char), l.length < f →
      parseStrChars f (l.flatMap escChar ++ '"' :: rest) = some (l, rest) := by
  induction l with
  | nil =>
    intro f rest hf
    match f, hf with
    | f + 1, _ => rfl
  | cons c l ih =>
    intro f rest hf
    match f, hf with
    | f + 1, hf =>
      rw [List.flatMap_cons, List.append_assoc, parseStrChars_escChar,
        ih f rest (by simpa using Nat.lt_of_succ_lt_succ hf)]
      rfl

/-! ## Number round trip -/

/-- A remainder that cannot extend a number match: empty, or headed by
a character that is no digit and none of `.`, `e`, `E`.  All JSON
delimiters (`,`, `]`, `\x7d`, end of input) qualify. -/
def numStop : List Char → Bool
  | [] => true
  | c :: _ => !(isDigitChar c || c = '.' || c = 'e' || c = 'E')

/-- The fuelled digit extractor agrees with `Nat.digits`. -/
theorem digitsLEAux_eq {f n : Nat} (h : n ≤ f) : digitsLEAux f n = Nat.digits 10 n := by
  induction f generalizing n with
  | zero =>
    interval_cases n
    simp [digitsLEAux]
  | succ f ih =>
    rw [digitsLEAux]
    by_cases h0 : n = 0
    · simp [h0]
    · rw [if_neg h0, Nat.digits_def' (by omega : 1 < 10) (by omega : 0 < n),
        ih (by omega : n / 10 ≤ f)]

/-- `digitsLE` is `Nat.digits 10`. -/
theorem digitsLE_eq (n : Nat) : digitsLE n = Nat.digits 10 n :=
  digitsLEAux_eq le_rfl

/-- Every character of a decimal rendering is a digit. -/
theorem natChars_digits {n : Nat} : ∀ c ∈ natChars n, isDigitChar c = true := by
  intro c hc
  rw [natChars] at hc
  by_cases h0 : n = 0
  · rw [if_pos h0] at hc
    simp at hc
    subst hc
    decide
  · rw [if_neg h0, digitsLE_eq] at hc
    simp only [List.mem_map, List.mem_reverse] at hc
    obtain ⟨d, hd, rfl⟩ := hc
    exact (hexDigitChar_digit (Nat.digits_lt_base (by omega) hd)).1

/-- A nonzero number's rendering starts with a nonzero digit. -/
theorem natChars_cons {n : Nat} (h0 : n ≠ 0) :
    ∃ c t, natChars n = c :: t ∧ isDigitChar c = true ∧ c ≠ '0' := by
  have hne : (Nat.digits 10 n).reverse ≠ [] := by
    simp [Nat.digits_ne_nil_iff_ne_zero, h0]
  obtain ⟨d, ds, hds⟩ := List.exists_cons_of_ne_nil hne
  have hlast : (Nat.digits 10 n).getLast? = some d := by
    rw [← List.head?_reverse, hds]
    rfl
  have hdnz : d ≠ 0 := by
    have hgl := Nat.getLast_digit_ne_zero 10 h0
    have h2 := List.getLast?_eq_getLast (Nat.digits 10 n)
      (Nat.digits_ne_nil_iff_ne_zero.mpr h0)
    rw [hlast, Option.some_inj] at h2
    rw [h2]
    exact hgl
  have hdmem : d ∈ Nat.digits 10 n := by
    rw [← List.mem_reverse, hds]
    exact List.mem_cons_self _ _
  have hdlt : d < 10 := Nat.digits_lt_base (by omega) hdmem
  refine ⟨hexDigitChar d, ds.map hexDigitChar, ?_, (hexDigitChar_digit hdlt).1,
    hexDigitChar_ne_zero hdlt hdnz⟩
  rw [natChars, if_neg h0, digitsLE_eq, hds]
  rfl

/-- Folding the rendered digits back recovers the number. -/
theorem digitsToNat_natChars (n : Nat) : digitsToNat (natChars n) = n := by
  by_cases h0 : n = 0
  · subst h0
    decide
  · rw [natChars, if_neg h0, digitsLE_eq]
    have key : ∀ ds : List Nat, (∀ d ∈ ds, d < 10) →
        List.foldr (fun d a => a * 10 + digitVal (hexDigitChar d)) 0 ds = Nat.ofDigits 10 ds := by
      intro ds hds
      induction ds with
      | nil => simp [Nat.ofDigits]
      | cons d ds ih =>
        have hd : d < 10 := hds d (List.mem_cons_self _ _)
        rw [List.foldr_cons, ih (fun x hx => hds x (List.mem_cons_of_mem _ hx)),
          Nat.ofDigits_cons, (hexDigitChar_digit hd).2]
        omega
    rw [digitsToNat, List.foldl_map, List.foldl_reverse,
      key _ (fun d hd => Nat.digits_lt_base (by omega) hd), Nat.ofDigits_digits]

/-- `takeDigits` consumes exactly a digit run, stopping where the
remainder cannot extend it. -/
theorem takeDigits_run {ds rest : List Char} (hds : ∀ c ∈ ds, isDigitChar c = true)
    (hr : numStop rest = true) : takeDigits (ds ++ rest) = (ds, rest) := by
  induction ds with
  | nil =>
    match rest, hr with
    | [], _ => rfl
    | c :: t, hr =>
      have hc : isDigitChar c = false := by
        simp [numStop] at hr
        simp [hr.1]
      simp [takeDigits, hc]
  | cons c t ih =>
    have hc : isDigitChar c = true := hds c (List.mem_cons_self _ _)
    have ht := ih fun x hx => hds x (List.mem_cons_of_mem _ hx)
    simp [takeDigits, hc, ht]

/-- Unpacked form of a non-empty stopping remainder. -/
theorem numStop_cons {c : Char} {t : List Char} (hr : numStop (c :: t) = true) :
    isDigitChar c = false ∧ ¬c = '.' ∧ ¬c = 'e' ∧ ¬c = 'E' := by
  simp only [numStop, Bool.not_eq_eq_eq_not, Bool.not_true, Bool.or_eq_false_iff,
    decide_eq_false_iff_not] at hr
  exact ⟨hr.1.1.1, hr.1.1.2, hr.1.2, hr.2⟩

/-- No fraction group matches at a stopping remainder. -/
theorem numFracPart_stop {r2 : List Char} (hr : numStop r2 = true) :
    numFracPart r2 = ([], r2) := by
  match r2, hr with
  | [], _ => rfl
  | c :: t, hr =>
    simp [numFracPart, (numStop_cons hr).2.1]

/-- No exponent group matches at a stopping remainder. -/
theorem numExpPart_stop {r3 : List Char} (hr : numStop r3 = true) :
    numExpPart r3 = ([], r3) := by
  match r3, hr with
  | [], _ => rfl
  | c :: t, hr =>
    have h := numStop_cons hr
    have hc : ¬(c = 'e' ∨ c = 'E') := by
      simp [h.2.2.1, h.2.2.2]
    simp [numExpPart, hc]

/-- The integer group consumes exactly a rendered number. -/
theorem numIntPart_natChars {n : Nat} {c : Char} {t rest : List Char}
    (hn : natChars n = c :: t) (hr : numStop rest = true) :
    numIntPart c (t ++ rest) = (natChars n, rest) := by
  by_cases h0 : n = 0
  · subst h0
    rw [show natChars 0 = ['0'] from rfl] at hn ⊢
    injection hn with h1 h2
    subst h1
    subst h2
    simp [numIntPart]
  · obtain ⟨c0, t0, hc0, _, hc0nz⟩ := natChars_cons h0
    rw [hn] at hc0
    injection hc0 with h1 h2
    rw [← h1] at hc0nz
    have hts : ∀ x ∈ t, isDigitChar x = true := fun x hx =>
      natChars_digits x (hn ▸ List.mem_cons_of_mem _ hx)
    simp only [numIntPart, if_neg hc0nz, takeDigits_run hts hr]
    rw [hn]

/-- The number token parser inverts Python's integer `repr` whenever
the remainder cannot extend the match. -/
theorem parseNumTok_intChars (i : Int) (rest : List Char) (hr : numStop rest = true) :
    parseNumTok (intChars i ++ rest) = some (.num i, rest) := by
  have natcase : ∀ n : Nat, ∃ c t, natChars n = c :: t ∧ isDigitChar c = true := by
    intro n
    by_cases h0 : n = 0
    · refine ⟨'0', [], ?_, by decide⟩
      rw [h0]
      rfl
    · obtain ⟨c, t, h1, h2, _⟩ := natChars_cons h0
      exact ⟨c, t, h1, h2⟩
  by_cases hneg : i < 0
  · have hi : intChars i = '-' :: natChars i.natAbs := by
      simp [intChars, hneg]
    obtain ⟨c, t, hct, hcd⟩ := natcase i.natAbs
    rw [hi, hct]
    simp [parseNumTok, hcd, numIntPart_natChars hct hr, numFracPart_stop hr,
      numExpPart_stop hr, digitsToNat_natChars]
    simp [abs_of_neg hneg]
  · have hi : intChars i = natChars i.natAbs := by
      simp [intChars, hneg]
    obtain ⟨c, t, hct, hcd⟩ := natcase i.natAbs
    have hcm : ¬c = '-' := digit_ne hcd (by decide)
    rw [hi, hct]
    simp [parseNumTok, hcm, hcd, numIntPart_natChars hct hr, numFracPart_stop hr,
      numExpPart_stop hr, digitsToNat_natChars]
    omega

/-! ## Structural round trip -/

/-- `skipWs` does nothing at a non-blank head. -/
theorem skipWs_not_ws {c : Char} {l : List Char} (h : isWsChar c = false) :
    skipWs (c :: l) = c :: l := by
  simp [skipWs, h]

/-- A leading blank is invisible to `parseVal` (it skips whitespace
first). -/
theorem parseVal_ws (f : Nat) (Z : List Char) : parseVal f (' ' :: Z) = parseVal f Z := by
  cases f with
  | zero => rfl
  | succ f => rfl

/-- A leading blank is invisible to `parseItems`. -/
theorem parseItems_ws (f : Nat) (Z : List Char) :
    parseItems f (' ' :: Z) = parseItems f Z := by
  cases f with
  | zero => rfl
  | succ f =>
    simp only [parseItems]
    rw [parseVal_ws]

/-- A leading blank is invisible to `parseMembers`. -/
theorem parseMembers_ws (f : Nat) (Z : List Char) :
    parseMembers f (' ' :: Z) = parseMembers f Z := by
  cases f with
  | zero => rfl
  | succ f => rfl

/-- Escaping never erases a character. -/
theorem escChar_length_pos (c : Char) : 1 ≤ (escChar c).length := by
  simp only [escChar]
  split_ifs <;> simp [hex4]

/-- The escaped form of a string is at least as long as the string. -/
theorem length_le_flatMap_escChar (l : List Char) :
    l.length ≤ (l.flatMap escChar).length := by
  induction l with
  | nil => simp
  | cons c t ih =>
    have := escChar_length_pos c
    simp only [List.flatMap_cons, List.length_append, List.length_cons]
    omega

/-- A rendered well-formed value begins with a character that is not
whitespace and closes no array or object. -/
theorem serVal_head (v : Json) (hw : wfPayload v = true) :
    ∃ c t, serVal v = c :: t ∧ isWsChar c = false ∧ ¬c = ']' ∧ ¬c = '\x7d' := by
  cases v with
  | num n =>
    by_cases hn : n < 0
    · refine ⟨'-', natChars n.natAbs, by simp [serVal, intChars, hn], ?_, ?_, ?_⟩ <;> decide
    · by_cases h0 : n.natAbs = 0
      · refine ⟨'0', [], ?_, ?_, ?_, ?_⟩
        · simp only [serVal, intChars, if_neg hn, h0]
          rfl
        all_goals decide
      · obtain ⟨c, t, hct, hcd, _⟩ := natChars_cons h0
        exact ⟨c, t, by simp only [serVal, intChars, if_neg hn, hct],
          digit_not_ws hcd, digit_ne hcd (by decide), digit_ne hcd (by decide)⟩
  | floatLit t => simp [wfPayload] at hw
  | bool b => cases b <;> exact ⟨_, _, rfl, by decide, by decide, by decide⟩
  | _ => exact ⟨_, _, rfl, by decide, by decide, by decide⟩

/-- `skipWs` is the identity in front of a rendered value. -/
theorem skipWs_serVal (v : Json) (hw : wfPayload v = true) (rest : List Char) :
    skipWs (serVal v ++ rest) = serVal v ++ rest := by
  obtain ⟨c, t, hct, hws, _, _⟩ := serVal_head v hw
  rw [hct, List.cons_append, skipWs_not_ws hws]

/-! ## Rebuilding an object from parsed members -/

/-- Inserting a fresh key appends. -/
theorem insertKV_fresh {kvs : List (String × Json)} {k : String} {v : Json}
    (h : ∀ p ∈ kvs, ¬p.1 = k) : insertKV kvs k v = kvs ++ [(k, v)] := by
  induction kvs with
  | nil => rfl
  | cons kv t ih =>
    have hk : ¬kv.1 = k := h kv (List.mem_cons_self _ _)
    obtain ⟨k1, v1⟩ := kv
    rw [insertKV, if_neg hk, ih fun p hp => h p (List.mem_cons_of_mem _ hp)]
    rfl

/-- Folding duplicate-free members into an empty dict reproduces them. -/
theorem buildObj_nodup {kvs : List (String × Json)} (h : keysNodup kvs = true) :
    buildObj kvs = kvs := by
  suffices key : ∀ kvs acc, keysNodup kvs = true →
      (∀ p ∈ acc, ∀ q ∈ kvs, ¬p.1 = q.1) →
      List.foldl (fun acc kv => insertKV acc kv.1 kv.2) acc kvs = acc ++ kvs by
    have := key kvs [] h (by simp)
    simpa [buildObj] using this
  intro kvs
  induction kvs with
  | nil => intro acc _ _; simp
  | cons kv t ih =>
    intro acc hnd hdisj
    have hfresh : ∀ p ∈ acc, ¬p.1 = kv.1 := fun p hp =>
      hdisj p hp kv (List.mem_cons_self _ _)
    have hnd2 : (∀ (a : String) (b : Json), (a, b) ∈ t → ¬a = kv.1) ∧ keysNodup t = true := by
      simpa [keysNodup] using hnd
    have hnd' : keysNodup t = true := hnd2.2
    have hknot : ∀ q ∈ t, ¬(kv.1 = q.1) := fun q hq he =>
      hnd2.1 q.1 q.2 hq he.symm
    rw [List.foldl_cons, insertKV_fresh hfresh,
      ih (acc ++ [(kv.1, kv.2)]) hnd' ?_]
    · simp
    · intro p hp q hq
      rcases List.mem_append.mp hp with hp1 | hp2
      · exact hdisj p hp1 q (List.mem_cons_of_mem _ hq)
      · have : p = (kv.1, kv.2) := by simpa using hp2
        rw [this]
        exact hknot q hq

/-- A head that starts no string, object, array, keyword, or constant
sends `parseVal` to the number branch. -/
theorem parseVal_not_keyword (f : Nat) (c : Char) (r : List Char)
    (hws : isWsChar c = false)
    (h1 : ¬c = '"') (h2 : ¬c = '\x7b') (h3 : ¬c = '[') (h4 : ¬c = 'n') (h5 : ¬c = 't')
    (h6 : ¬c = 'f') (h7 : ¬c = 'N') (h8 : ¬c = 'I') :
    parseVal (f + 1) (c :: r)
      = (match parseNumTok (c :: r) with
         | some res => some res
         | none =>
           match c :: r with
           | '-' :: 'I' :: 'n' :: 'f' :: 'i' :: 'n' :: 'i' :: 't' :: 'y' :: r2 =>
             some (.floatLit "-Infinity", r2)
           | _ => none) := by
  simp only [parseVal, skipWs_not_ws hws, if_neg h1, if_neg h2, if_neg h3, if_neg h4,
    if_neg h5, if_neg h6, if_neg h7, if_neg h8]

/-- Parsing a rendered integer recovers it. -/
theorem parseVal_intChars (i : Int) (f : Nat) (rest : List Char)
    (hr : numStop rest = true) :
    parseVal (f + 1) (intChars i ++ rest) = some (.num i, rest) := by
  by_cases hneg : i < 0
  · have hi : intChars i = '-' :: natChars i.natAbs := by
      simp [intChars, hneg]
    rw [hi, List.cons_append,
      parseVal_not_keyword f '-' _ (by decide) (by decide) (by decide) (by decide)
        (by decide) (by decide) (by decide) (by decide) (by decide),
      show ('-' :: (natChars i.natAbs ++ rest)) = intChars i ++ rest from by rw [hi]; rfl,
      parseNumTok_intChars i rest hr]
  · have hi : intChars i = natChars i.natAbs := by
      simp [intChars, hneg]
    have hcons : ∃ c t, natChars i.natAbs = c :: t ∧ isDigitChar c = true := by
      by_cases h0 : i.natAbs = 0
      · refine ⟨'0', [], ?_, by decide⟩
        rw [h0]
        rfl
      · obtain ⟨c, t, h1, h2, _⟩ := natChars_cons h0
        exact ⟨c, t, h1, h2⟩
    obtain ⟨c, t, hct, hcd⟩ := hcons
    rw [hi, hct, List.cons_append,
      parseVal_not_keyword f c _ (digit_not_ws hcd)
        (digit_ne hcd (by decide)) (digit_ne hcd (by decide)) (digit_ne hcd (by decide))
        (digit_ne hcd (by decide)) (digit_ne hcd (by decide)) (digit_ne hcd (by decide))
        (digit_ne hcd (by decide)) (digit_ne hcd (by decide)),
      show (c :: (t ++ rest)) = intChars i ++ rest from by rw [hi, hct]; rfl,
      parseNumTok_intChars i rest hr]

mutual
/-- Parsing a rendered well-formed value recovers it exactly, given
fuel beyond the rendered length and a remainder that cannot extend a
number match. -/
theorem parseVal_serVal :
    ∀ (v : Json) (f : Nat) (rest : List Char), wfPayload v = true →
      (serVal v).length < f → numStop rest = true →
      parseVal f (serVal v ++ rest) = some (v, rest)
  | .null, f, rest, _, hf, _ => by
    match f, hf with
    | f + 1, _ => rfl
  | .bool true, f, rest, _, hf, _ => by
    match f, hf with
    | f + 1, _ => rfl
  | .bool false, f, rest, _, hf, _ => by
    match f, hf with
    | f + 1, _ => rfl
  | .floatLit t, f, rest, hw, _, _ => by
    simp [wfPayload] at hw
  | .num n, f, rest, _, hf, hr => by
    match f, hf with
    | f + 1, _ =>
      rw [show serVal (.num n) = intChars n from by simp [serVal]]
      exact parseVal_intChars n f rest hr
  | .str s, f, rest, _, hf, _ => by
    match f, hf with
    | f + 1, hf =>
      have hlen : s.data.length < f := by
        have h1 := length_le_flatMap_escChar s.data
        simp only [serVal, serStr, List.length_cons, List.length_append,
          List.length_singleton] at hf
        omega
      have harg : serVal (.str s) ++ rest
          = '"' :: (s.data.flatMap escChar ++ '"' :: rest) := by
        simp [serVal, serStr]
      rw [harg]
      show (parseStrChars f (s.data.flatMap escChar ++ '"' :: rest)).map
          (fun pr => (Json.str ⟨pr.1⟩, pr.2)) = some (.str s, rest)
      rw [parseStrChars_ser s.data f rest hlen]
      rfl
  | .arr [], f, rest, _, hf, _ => by
    match f, hf with
    | f + 1, _ => rfl
  | .arr (x :: xs), f, rest, hw, hf, _ => by
    match f, hf with
    | f + 1, hf =>
      have hw2 : wfPayload x = true ∧ wfList xs = true := by
        simpa [wfPayload, wfList] using hw
      obtain ⟨c, t, hct, hws, hbr, _⟩ := serVal_head x hw2.1
      have hhead : ∃ Z, serItems (x :: xs) = c :: Z := by
        cases xs with
        | nil => exact ⟨t, by simp [serItems, hct]⟩
        | cons y ys => exact ⟨t ++ ',' :: ' ' :: serItems (y :: ys), by simp [serItems, hct]⟩
      obtain ⟨Z, hZ⟩ := hhead
      have hfuel : (serItems (x :: xs)).length + 1 < f := by
        simp only [serVal, List.length_cons, List.length_append,
          List.length_singleton] at hf
        omega
      have harg : serVal (.arr (x :: xs)) ++ rest
          = '[' :: (serItems (x :: xs) ++ ']' :: rest) := by
        simp [serVal]
      rw [harg]
      simp only [parseVal, skipWs_not_ws (by decide : isWsChar '[' = false),
        if_neg (by decide : ¬ '[' = '"'), if_neg (by decide : ¬ '[' = '\x7b'),
        if_pos (rfl : '[' = '[')]
      rw [hZ, List.cons_append, skipWs_not_ws hws]
      rw [if_neg (by simp [hbr] : ¬(c :: (Z ++ ']' :: rest)).head? = some ']')]
      rw [← List.cons_append, ← hZ,
        parseItems_serItems (x :: xs) f rest (by simp) hw hfuel]
      rfl
  | .obj [], f, rest, _, hf, _ => by
    match f, hf with
    | f + 1, _ => rfl
  | .obj (kv :: kvs), f, rest, hw, hf, _ => by
    match f, hf with
    | f + 1, hf =>
      have hw2 : keysNodup (kv :: kvs) = true ∧ wfPairs (kv :: kvs) = true := by
        simpa [wfPayload] using hw
      have hhead : ∃ Z, serMembers (kv :: kvs) = '"' :: Z := by
        obtain ⟨k, v⟩ := kv
        cases kvs with
        | nil =>
          exact ⟨k.data.flatMap escChar ++ ['"'] ++ ':' :: ' ' :: serVal v,
            by simp [serMembers, serStr]⟩
        | cons kv2 kvs2 =>
          exact ⟨k.data.flatMap escChar ++ ['"'] ++
            (':' :: ' ' :: serVal v ++ ',' :: ' ' :: serMembers (kv2 :: kvs2)),
            by simp [serMembers, serStr]⟩
      obtain ⟨Z, hZ⟩ := hhead
      have hfuel : (serMembers (kv :: kvs)).length + 1 < f := by
        simp only [serVal, List.length_cons, List.length_append,
          List.length_singleton] at hf
        omega
      have harg : serVal (.obj (kv :: kvs)) ++ rest
          = '\x7b' :: (serMembers (kv :: kvs) ++ '\x7d' :: rest) := by
        simp [serVal]
      rw [harg]
      simp only [parseVal, skipWs_not_ws (by decide : isWsChar '\x7b' = false),
        if_neg (by decide : ¬ '\x7b' = '"'), if_pos (rfl : '\x7b' = '\x7b')]
      rw [hZ, List.cons_append, skipWs_not_ws (by decide : isWsChar '"' = false)]
      rw [if_neg (by simp : ¬('"' :: (Z ++ '\x7d' :: rest)).head? = some '\x7d')]
      rw [← List.cons_append, ← hZ,
        parseMembers_serMembers (kv :: kvs) f rest (by simp) hw2.2 hfuel]
      simp [buildObj_nodup hw2.1]
/-- Parsing rendered array items (nonempty, `", "`-separated, then the
closing bracket) recovers them. -/
theorem parseItems_serItems :
    ∀ (xs : List Json) (f : Nat) (rest : List Char), xs ≠ [] → wfList xs = true →
      (serItems xs).length + 1 < f →
      parseItems f (serItems xs ++ ']' :: rest) = some (xs, rest)
  | [], _, _, hne, _, _ => absurd rfl hne
  | [x], f, rest, _, hw, hf => by
    match f, hf with
    | f + 1, hf =>
      have hwx : wfPayload x = true := by
        simpa [wfList] using hw
      have hfx : (serVal x).length < f := by
        simp only [serItems, List.length_cons] at hf
        omega
      simp only [parseItems, show serItems [x] = serVal x from rfl,
        parseVal_serVal x f (']' :: rest) hwx hfx rfl]
      rfl
  | x :: y :: ys, f, rest, _, hw, hf => by
    match f, hf with
    | f + 1, hf =>
      have hw2 : wfPayload x = true ∧ wfList (y :: ys) = true := by
        simpa [wfList] using hw
      have harg : serItems (x :: y :: ys) ++ ']' :: rest
          = serVal x ++ (',' :: ' ' :: (serItems (y :: ys) ++ ']' :: rest)) := by
        simp [serItems]
      have hfx : (serVal x).length < f := by
        simp only [serItems, List.length_cons, List.length_append] at hf
        omega
      have hftail : (serItems (y :: ys)).length + 1 < f := by
        simp only [serItems, List.length_cons, List.length_append] at hf
        omega
      simp only [parseItems, harg,
        parseVal_serVal x f (',' :: ' ' :: (serItems (y :: ys) ++ ']' :: rest)) hw2.1 hfx rfl]
      rw [show skipWs (',' :: ' ' :: (serItems (y :: ys) ++ ']' :: rest))
          = ',' :: ' ' :: (serItems (y :: ys) ++ ']' :: rest) from
        skipWs_not_ws (by decide)]
      show Option.map (fun pr => (x :: pr.1, pr.2))
          (parseItems f (' ' :: (serItems (y :: ys) ++ ']' :: rest)))
        = some (x :: y :: ys, rest)
      rw [parseItems_ws f _, parseItems_serItems (y :: ys) f rest (by simp) hw2.2 hftail]
      rfl
/-- Parsing rendered object members (nonempty, `"key": value` pairs,
`", "`-separated, then the closing brace) recovers them in order. -/
theorem parseMembers_serMembers :
    ∀ (kvs : List (String × Json)) (f : Nat) (rest : List Char), kvs ≠ [] →
      wfPairs kvs = true → (serMembers kvs).length + 1 < f →
      parseMembers f (serMembers kvs ++ '\x7d' :: rest) = some (kvs, rest)
  | [], _, _, hne, _, _ => absurd rfl hne
  | [(k, v)], f, rest, _, hw, hf => by
    match f, hf with
    | f + 1, hf =>
      have hwv : wfPayload v = true := by
        simpa [wfPairs] using hw
      have hkey : k.data.length < f := by
        have h1 := length_le_flatMap_escChar k.data
        simp only [serMembers, serStr, List.length_cons, List.length_append,
          List.length_singleton] at hf
        omega
      have hfv : (serVal v).length < f := by
        simp only [serMembers, serStr, List.length_cons, List.length_append,
          List.length_singleton] at hf
        omega
      have harg : serMembers [(k, v)] ++ '\x7d' :: rest
          = '"' :: (k.data.flatMap escChar ++
              '"' :: (':' :: ' ' :: (serVal v ++ '\x7d' :: rest))) := by
        simp [serMembers, serStr]
      rw [harg]
      simp only [parseMembers, skipWs_not_ws (by decide : isWsChar '"' = false),
        parseStrChars_ser k.data f _ hkey,
        skipWs_not_ws (by decide : isWsChar ':' = false), parseVal_ws,
        parseVal_serVal v f ('\x7d' :: rest) hwv hfv rfl,
        skipWs_not_ws (by decide : isWsChar '\x7d' = false)]
  | (k, v) :: kv2 :: kvs2, f, rest, _, hw, hf => by
    match f, hf with
    | f + 1, hf =>
      have hw2 : wfPayload v = true ∧ wfPairs (kv2 :: kvs2) = true := by
        simpa [wfPairs] using hw
      have hkey : k.data.length < f := by
        have h1 := length_le_flatMap_escChar k.data
        simp only [serMembers, serStr, List.length_cons, List.length_append,
          List.length_singleton] at hf
        omega
      have hfv : (serVal v).length < f := by
        simp only [serMembers, serStr, List.length_cons, List.length_append,
          List.length_singleton] at hf
        omega
      have hftail : (serMembers (kv2 :: kvs2)).length + 1 < f := by
        simp only [serMembers, serStr, List.length_cons, List.length_append,
          List.length_singleton] at hf
        omega
      have harg : serMembers ((k, v) :: kv2 :: kvs2) ++ '\x7d' :: rest
          = '"' :: (k.data.flatMap escChar ++
              '"' :: (':' :: ' ' :: (serVal v ++
                ',' :: ' ' :: (serMembers (kv2 :: kvs2) ++ '\x7d' :: rest)))) := by
        simp [serMembers, serStr]
      rw [harg]
      simp only [parseMembers, skipWs_not_ws (by decide : isWsChar '"' = false),
        parseStrChars_ser k.data f _ hkey,
        skipWs_not_ws (by decide : isWsChar ':' = false), parseVal_ws,
        parseVal_serVal v f
          (',' :: ' ' :: (serMembers (kv2 :: kvs2) ++ '\x7d' :: rest)) hw2.1 hfv rfl,
        skipWs_not_ws (by decide : isWsChar ',' = false), parseMembers_ws,
        parseMembers_serMembers (kv2 :: kvs2) f rest (by simp) hw2.2 hftail]
      rfl
end

/-! ## The rendered text is ASCII, and UTF-8 is transparent on it -/

/-- Hex digit characters are ASCII. -/
theorem hexDigitChar_ascii {d : Nat} (h : d < 16) : (hexDigitChar d).toNat < 0x80 := by
  interval_cases d <;> decide

/-- The four digits of `hex4` are ASCII. -/
theorem hex4_ascii {n : Nat} : ∀ x ∈ hex4 n, x.toNat < 0x80 := by
  intro x hx
  simp only [hex4, List.mem_cons, List.not_mem_nil, or_false] at hx
  rcases hx with rfl | rfl | rfl | rfl <;>
    exact hexDigitChar_ascii (Nat.mod_lt _ (by omega))

/-- Every character an escape emits is ASCII. -/
theorem escChar_ascii (c : Char) : ∀ x ∈ escChar c, x.toNat < 0x80 := by
  intro x hx
  simp only [escChar] at hx
  split_ifs at hx with h1 h2 h3 h4 h5 h6 h7 h8 h9
  · simp at hx; subst hx; decide
  · simp at hx; rcases hx with rfl | rfl <;> decide
  · simp at hx; subst hx; omega
  · simp at hx; rcases hx with rfl | rfl <;> decide
  · simp at hx; rcases hx with rfl | rfl <;> decide
  · simp at hx; rcases hx with rfl | rfl <;> decide
  · simp at hx; rcases hx with rfl | rfl <;> decide
  · simp at hx; rcases hx with rfl | rfl <;> decide
  · simp only [List.mem_cons] at hx
    rcases hx with rfl | rfl | hx
    · decide
    · decide
    · exact hex4_ascii x hx
  · simp only [List.mem_append, List.mem_cons] at hx
    rcases hx with (rfl | rfl | hx) | (rfl | rfl | hx)
    · decide
    · decide
    · exact hex4_ascii x hx
    · decide
    · decide
    · exact hex4_ascii x hx

/-- A rendered integer is ASCII. -/
theorem intChars_ascii (i : Int) : ∀ x ∈ intChars i, x.toNat < 0x80 := by
  have hnat : ∀ n : Nat, ∀ x ∈ natChars n, x.toNat < 0x80 := by
    intro n x hx
    have := isDigitChar_iff.mp (natChars_digits x hx)
    omega
  intro x hx
  rw [intChars] at hx
  split_ifs at hx
  · rcases List.mem_cons.mp hx with rfl | hx
    · decide
    · exact hnat _ x hx
  · exact hnat _ x hx

mutual
/-- `json.dumps` output for a well-formed value is pure ASCII (the
effect of `ensure_ascii=True`). -/
theorem serVal_ascii : ∀ (v : Json), wfPayload v = true →
    ∀ x ∈ serVal v, x.toNat < 0x80
  | .null, _ => by intro x hx; simp [serVal] at hx; rcases hx with rfl | rfl | rfl | rfl <;> decide
  | .bool true, _ => by
    intro x hx; simp [serVal] at hx; rcases hx with rfl | rfl | rfl | rfl <;> decide
  | .bool false, _ => by
    intro x hx; simp [serVal] at hx; rcases hx with rfl | rfl | rfl | rfl | rfl <;> decide
  | .num n, _ => by
    intro x hx
    simp only [serVal] at hx
    exact intChars_ascii n x hx
  | .str s, _ => by
    intro x hx
    simp only [serVal, serStr, List.mem_cons, List.mem_append,
      List.mem_singleton, List.not_mem_nil, or_false] at hx
    rcases hx with rfl | hx | rfl
    · decide
    · obtain ⟨c, _, hc⟩ := List.mem_flatMap.mp hx
      exact escChar_ascii c x hc
    · decide
  | .floatLit t, hw => by simp [wfPayload] at hw
  | .arr xs, hw => by
    intro x hx
    simp only [serVal, List.mem_cons, List.mem_append, List.mem_singleton,
      List.not_mem_nil, or_false] at hx
    rcases hx with rfl | hx | rfl
    · decide
    · exact serItems_ascii xs (by simpa [wfPayload] using hw) x hx
    · decide
  | .obj kvs, hw => by
    intro x hx
    have hw2 : keysNodup kvs = true ∧ wfPairs kvs = true := by
      simpa [wfPayload] using hw
    simp only [serVal, List.mem_cons, List.mem_append, List.mem_singleton,
      List.not_mem_nil, or_false] at hx
    rcases hx with rfl | hx | rfl
    · decide
    · exact serMembers_ascii kvs hw2.2 x hx
    · decide
/-- Rendered array items are ASCII. -/
theorem serItems_ascii : ∀ (xs : List Json), wfList xs = true →
    ∀ x ∈ serItems xs, x.toNat < 0x80
  | [], _ => by intro x hx; simp [serItems] at hx
  | [v], hw => by
    intro x hx
    rw [show serItems [v] = serVal v from rfl] at hx
    exact serVal_ascii v (by simpa [wfList] using hw) x hx
  | v :: w :: ws, hw => by
    intro x hx
    have hw2 : wfPayload v = true ∧ wfList (w :: ws) = true := by
      simpa [wfList] using hw
    simp only [serItems, List.mem_append, List.mem_cons] at hx
    rcases hx with hx | rfl | rfl | hx
    · exact serVal_ascii v hw2.1 x hx
    · decide
    · decide
    · exact serItems_ascii (w :: ws) hw2.2 x hx
/-- Rendered object members are ASCII. -/
theorem serMembers_ascii : ∀ (kvs : List (String × Json)), wfPairs kvs = true →
    ∀ x ∈ serMembers kvs, x.toNat < 0x80
  | [], _ => by intro x hx; simp [serMembers] at hx
  | [(k, v)], hw => by
    intro x hx
    simp only [serMembers, serStr, List.mem_append, List.mem_cons,
      List.mem_singleton, List.not_mem_nil, or_false] at hx
    rcases hx with (rfl | hx | rfl) | rfl | rfl | hx
    · decide
    · obtain ⟨c, _, hc⟩ := List.mem_flatMap.mp hx
      exact escChar_ascii c x hc
    · decide
    · decide
    · decide
    · exact serVal_ascii v (by simpa [wfPairs] using hw) x hx
  | (k, v) :: kv2 :: kvs2, hw => by
    intro x hx
    have hw2 : wfPayload v = true ∧ wfPairs (kv2 :: kvs2) = true := by
      simpa [wfPairs] using hw
    have hserq : ∀ y ∈ serStr k, y.toNat < 0x80 := by
      intro y hy
      simp only [serStr, List.mem_cons, List.mem_append, List.mem_singleton,
        List.not_mem_nil, or_false] at hy
      rcases hy with rfl | hy | rfl
      · decide
      · obtain ⟨c, _, hc⟩ := List.mem_flatMap.mp hy
        exact escChar_ascii c y hc
      · decide
    rw [show serMembers ((k, v) :: kv2 :: kvs2)
        = (serStr k ++ (':' :: ' ' :: serVal v)) ++
          (',' :: ' ' :: serMembers (kv2 :: kvs2)) from rfl] at hx
    rcases List.mem_append.mp hx with hx | hx
    · rcases List.mem_append.mp hx with hx | hx
      · exact hserq x hx
      · rcases List.mem_cons.mp hx with rfl | hx
        · decide
        · rcases List.mem_cons.mp hx with rfl | hx
          · decide
          · exact serVal_ascii v hw2.1 x hx
    · rcases List.mem_cons.mp hx with rfl | hx
      · decide
      · rcases List.mem_cons.mp hx with rfl | hx
        · decide
        · exact serMembers_ascii (kv2 :: kvs2) hw2.2 x hx
end

/-- An ASCII character encodes to its single code-point byte. -/
theorem utf8EncodeChar_ascii {c : Char} (h : c.toNat < 0x80) :
    utf8EncodeChar c = [c.toNat] := by
  simp [utf8EncodeChar, h]

/-- Decoding the encoding of an ASCII character list gives it back. -/
theorem utf8DecodeAux_ascii (l : List Char) (h : ∀ c ∈ l, c.toNat < 0x80) :
    utf8DecodeAux (l.map Char.toNat).length (l.map Char.toNat) = some l := by
  induction l with
  | nil => rfl
  | cons c t ih =>
    have hc : c.toNat < 0x80 := h c (List.mem_cons_self _ _)
    have ht := ih fun x hx => h x (List.mem_cons_of_mem _ hx)
    simp only [List.map_cons, List.length_cons, utf8DecodeAux, if_pos hc, ht,
      Char.ofNat_toNat]
    rfl

/-- Encoding an ASCII character list is byte-for-character. -/
theorem utf8Encode_ascii_map (l : List Char) (h : ∀ c ∈ l, c.toNat < 0x80) :
    l.flatMap utf8EncodeChar = l.map Char.toNat := by
  induction l with
  | nil => rfl
  | cons c t ih =>
    rw [List.flatMap_cons, List.map_cons,
      utf8EncodeChar_ascii (h c (List.mem_cons_self _ _)),
      ih fun x hx => h x (List.mem_cons_of_mem _ hx)]
    rfl

/-- UTF-8 encode-then-decode is the identity on ASCII strings. -/
theorem utf8_roundtrip_ascii (s : String) (h : ∀ c ∈ s.data, c.toNat < 0x80) :
    utf8Decode (utf8Encode s) = some s := by
  have henc : utf8Encode s = s.data.map Char.toNat := utf8Encode_ascii_map s.data h
  rw [utf8Decode, henc, utf8DecodeAux_ascii s.data h]
  rfl

/-! ## The end-to-end codec round trip -/

/-- `json.loads` inverts `json.dumps` on well-formed payloads. -/
theorem jsonLoads_jsonDumps {v : Json} (hw : wfPayload v = true) :
    jsonLoads (jsonDumps v) = some v := by
  have hp : parseVal (2 * (serVal v).length + 2) (serVal v ++ []) = some (v, []) :=
    parseVal_serVal v _ [] hw (by omega) rfl
  rw [List.append_nil] at hp
  show (match parseVal (2 * (serVal v).length + 2) (serVal v) with
    | some (w, r) => if skipWs r = [] then some w else none
    | none => none) = some v
  rw [hp]
  rfl

/-- The listener's decode pipeline inverts the sender's encode
pipeline on well-formed payloads. -/
theorem decodeBytes_encode {v : Json} (hw : wfPayload v = true) :
    decodeBytes (utf8Encode (jsonDumps v)) = some v := by
  rw [decodeBytes, utf8_roundtrip_ascii (jsonDumps v) (serVal_ascii v hw)]
  exact jsonLoads_jsonDumps hw

/-! ## Receive-loop lemmas -/

/-- A datagram that decodes as JSON produces an announce event. -/
theorem handleDatagram_json {data : Bytes} {a : Addr} {s : String} {v : Json}
    (h1 : utf8Decode data = some s) (h2 : jsonLoads s = some v) :
    handleDatagram data a = .ok (.announce v a) := by
  simp [handleDatagram, h1, h2]

/-- A UTF-8 datagram that is not JSON produces a raw-data event. -/
theorem handleDatagram_raw {data : Bytes} {a : Addr} {s : String}
    (h1 : utf8Decode data = some s) (h2 : jsonLoads s = none) :
    handleDatagram data a = .ok (.raw data a) := by
  simp [handleDatagram, h1, h2]

/-- A non-UTF-8 datagram raises `UnicodeDecodeError`, which the
`except json.JSONDecodeError` clause does not catch. -/
theorem handleDatagram_unicode {data : Bytes} {a : Addr}
    (h1 : utf8Decode data = none) :
    handleDatagram data a = .error .unicodeDecodeError := by
  simp [handleDatagram, h1]

/-- A handled datagram prepends its event and the loop continues. -/
theorem runLoop_ok {data : Bytes} {a : Addr} {ev : LEvent}
    (h : handleDatagram data a = .ok ev) (rest : List RecvEvent) :
    runLoop (.datagram data a :: rest)
      = ⟨ev :: (runLoop rest).events, (runLoop rest).attempts + 1,
          (runLoop rest).outcome⟩ := by
  simp [runLoop, h]

/-- An exception in the loop body terminates the loop at once. -/
theorem runLoop_crash {data : Bytes} {a : Addr} {e : PyErr}
    (h : handleDatagram data a = .error e) (rest : List RecvEvent) :
    runLoop (.datagram data a :: rest) = ⟨[], 1, .crashed e⟩ := by
  simp [runLoop, h]

/-! ## Issue-loop lemmas -/

/-- The loop makes exactly one `create_issue` call per record, in list
order, regardless of outcomes. -/
theorem createIssuesLoop_calls (api : String → String → List String → Except String IssueHandle) :
    ∀ (prs : List PR) (st : IssueRun),
      (createIssuesLoop api prs st).calls = st.calls ++ prs.map issueTitle := by
  intro prs
  induction prs with
  | nil => intro st; simp [createIssuesLoop]
  | cons pr rest ih =>
    intro st
    cases h : api (issueTitle pr) (createIssueBody pr) pr.labels with
    | ok v => simp [createIssuesLoop, h, ih]
    | error e => simp [createIssuesLoop, h, ih]

/-- Every record is counted exactly once, as a success or a failure. -/
theorem createIssuesLoop_counts (api : String → String → List String → Except String IssueHandle) :
    ∀ (prs : List PR) (st : IssueRun),
      (createIssuesLoop api prs st).created + (createIssuesLoop api prs st).failed
        = st.created + st.failed + prs.length := by
  intro prs
  induction prs with
  | nil => intro st; simp [createIssuesLoop]
  | cons pr rest ih =>
    intro st
    cases h : api (issueTitle pr) (createIssueBody pr) pr.labels with
    | ok v => simp [createIssuesLoop, h, ih]; omega
    | error e => simp [createIssuesLoop, h, ih]; omega

/-- The tracker ends up with exactly the issues the client granted, in
order; failures leave earlier successes untouched. -/
theorem createIssuesLoop_issues (api : String → String → List String → Except String IssueHandle) :
    ∀ (prs : List PR) (st : IssueRun),
      (createIssuesLoop api prs st).createdIssues
        = st.createdIssues ++ prs.filterMap
            (fun pr => (api (issueTitle pr) (createIssueBody pr) pr.labels).toOption) := by
  intro prs
  induction prs with
  | nil => intro st; simp [createIssuesLoop]
  | cons pr rest ih =>
    intro st
    cases h : api (issueTitle pr) (createIssueBody pr) pr.labels with
    | ok v => simp [createIssuesLoop, h, ih, Except.toOption]
    | error e => simp [createIssuesLoop, h, ih, Except.toOption]

/-! ## The claims -/

/-- Claim C1, counterexample: the one-byte datagram `[0xff]` is not
valid UTF-8; contrary to the claim, neither listener surfaces it as a
RawDatagram — the loop body raises an uncaught `UnicodeDecodeError`
and the receive loop terminates with no event reported. -/
theorem c1_invalid_utf8_crashes_loop :
    (discoveryMain (.ok ()) [.datagram [0xff] ⟨"192.168.0.9", 50000⟩]).events = []
    ∧ (discoveryMain (.ok ()) [.datagram [0xff] ⟨"192.168.0.9", 50000⟩]).outcome
        = .raised .unicodeDecodeError
    ∧ (broadcastMain (.ok ()) [.datagram [0xff] ⟨"192.168.0.9", 50000⟩]).events = []
    ∧ (broadcastMain (.ok ()) [.datagram [0xff] ⟨"192.168.0.9", 50000⟩]).outcome
        = .raised .unicodeDecodeError :=
  ⟨rfl, rfl, rfl, rfl⟩

/-- Claim C1, amended: a datagram that is valid UTF-8 but not JSON is
surfaced as a RawDatagram with its bytes and sender address and the
loop continues; a datagram that is not valid UTF-8 raises an uncaught
`UnicodeDecodeError` that terminates the receive loop. -/
theorem c1_raw_datagram_only_for_utf8 (data : Bytes) (a : Addr) (rest : List RecvEvent) :
    (∀ s : String, utf8Decode data = some s → jsonLoads s = none →
      runLoop (.datagram data a :: rest)
        = ⟨.raw data a :: (runLoop rest).events, (runLoop rest).attempts + 1,
            (runLoop rest).outcome⟩)
    ∧ (utf8Decode data = none →
        runLoop (.datagram data a :: rest) = ⟨[], 1, .crashed .unicodeDecodeError⟩) := by
  constructor
  · intro s h1 h2
    exact runLoop_ok (handleDatagram_raw h1 h2) rest
  · intro h1
    exact runLoop_crash (handleDatagram_unicode h1) rest

/-- Claim C1, witness: the byte `0x7b` alone (an opening brace) is
valid UTF-8 but not JSON and yields a RawDatagram; the byte `0xff` is
not valid UTF-8 and crashes the loop. -/
theorem c1_raw_datagram_only_for_utf8_witness :
    runLoop [.datagram [0x7b] ⟨"10.0.0.7", 9⟩]
      = ⟨[.raw [0x7b] ⟨"10.0.0.7", 9⟩], 1, .starved⟩
    ∧ runLoop [.datagram [0xff] ⟨"10.0.0.7", 9⟩]
      = ⟨[], 1, .crashed .unicodeDecodeError⟩ :=
  ⟨(c1_raw_datagram_only_for_utf8 [0x7b] ⟨"10.0.0.7", 9⟩ []).1 "\x7b" rfl rfl,
   (c1_raw_datagram_only_for_utf8 [0xff] ⟨"10.0.0.7", 9⟩ []).2 rfl⟩

/-- Claim C2: for every well-formed PeerAnnouncement payload, decoding
the UTF-8 JSON encoding yields the payload again:
`Decode(Encode(P)) = P`, with Encode the sender's `json.dumps` plus
UTF-8 encode and Decode the listener's UTF-8 decode plus `json.loads`. -/
theorem c2_payload_roundtrip (P : Json) (hw : wfPayload P = true) :
    decodeBytes (utf8Encode (jsonDumps P)) = some P :=
  decodeBytes_encode hw

/-- Claim C2, witness: the round trip evaluated on the test sender's
concrete announcement payload. -/
theorem c2_payload_roundtrip_witness :
    wfPayload senderPayload = true
    ∧ decodeBytes (utf8Encode (jsonDumps senderPayload)) = some senderPayload :=
  ⟨rfl, c2_payload_roundtrip senderPayload rfl⟩

/-- Claim C3: on a bind failure both listeners fail at bind time,
before the receive loop: no `recvfrom` is attempted and no datagram
event is reported.  The failure is surfaced immediately — the
broadcast listener prints its two-line diagnostic and returns, and the
discovery listener propagates the `OSError` (with its message) out of
`main`. -/
theorem c3_bind_failure_fails_fast (m : String) (script : List RecvEvent) :
    (broadcastMain (.error m) script).attempts = 0
    ∧ (broadcastMain (.error m) script).events = []
    ∧ (broadcastMain (.error m) script).diag = broadcastBindDiag m
    ∧ (broadcastMain (.error m) script).outcome = .returned
    ∧ (discoveryMain (.error m) script).attempts = 0
    ∧ (discoveryMain (.error m) script).events = []
    ∧ (discoveryMain (.error m) script).outcome = .raised (.osError m) :=
  ⟨rfl, rfl, rfl, rfl, rfl, rfl, rfl⟩

/-- Claim C4, counterexample: a multicast datagram whose `type` tag is
`"chat"` — not the expected discovery namespace — is not ignored: the
discovery listener reports it as a discovered node. -/
theorem c4_foreign_type_reported :
    (discoveryMain (.ok ())
        [.datagram (utf8Encode "\x7b\"type\": \"chat\"\x7d") ⟨"10.1.2.3", 7077⟩]).events
      = [.announce (.obj [("type", .str "chat")]) ⟨"10.1.2.3", 7077⟩]
    ∧ (discoveryMain (.ok ())
        [.datagram (utf8Encode "\x7b\"type\": \"chat\"\x7d") ⟨"10.1.2.3", 7077⟩]).events
      ≠ [] := by
  refine ⟨rfl, ?_⟩
  have h1 : (discoveryMain (.ok ())
      [.datagram (utf8Encode "\x7b\"type\": \"chat\"\x7d") ⟨"10.1.2.3", 7077⟩]).events
    = [.announce (.obj [("type", .str "chat")]) ⟨"10.1.2.3", 7077⟩] := rfl
  rw [h1]
  exact List.cons_ne_nil _ _

/-- Claim C4, amended: the listeners apply no namespace filter at all:
every datagram that decodes as valid JSON is reported as a discovered
node, whatever its `node_type`/`type` tag (or absence of one). -/
theorem c4_no_namespace_filter (data : Bytes) (a : Addr) (s : String) (v : Json)
    (h1 : utf8Decode data = some s) (h2 : jsonLoads s = some v) (rest : List RecvEvent) :
    runLoop (.datagram data a :: rest)
      = ⟨.announce v a :: (runLoop rest).events, (runLoop rest).attempts + 1,
          (runLoop rest).outcome⟩ :=
  runLoop_ok (handleDatagram_json h1 h2) rest

/-- Claim C4, witness: the foreign-typed datagram above is announced,
not ignored. -/
theorem c4_no_namespace_filter_witness :
    runLoop [.datagram (utf8Encode "\x7b\"type\": \"chat\"\x7d") ⟨"10.1.2.3", 7077⟩]
      = ⟨[.announce (.obj [("type", .str "chat")]) ⟨"10.1.2.3", 7077⟩], 1, .starved⟩ :=
  c4_no_namespace_filter (utf8Encode "\x7b\"type\": \"chat\"\x7d") ⟨"10.1.2.3", 7077⟩
    "\x7b\"type\": \"chat\"\x7d" (.obj [("type", .str "chat")]) rfl rfl []

/-- Claim C5: the sender transmits exactly one UDP datagram, the UTF-8
JSON encoding of its announcement dict, to `239.255.70.77:7077`, with
the multicast TTL option set to 2; a listener that receives this
datagram decodes it successfully and reports `node_id` as
`"TEST_SENDER"` and `agents` as 1. -/
theorem c5_end_to_end :
    senderSends = [(utf8Encode (jsonDumps senderPayload), ⟨MCAST_GRP, MCAST_PORT⟩)]
    ∧ SockOp.setsockopt .multicastTTL 2 ∈ senderOps
    ∧ MCAST_GRP = "239.255.70.77" ∧ MCAST_PORT = 7077
    ∧ (∀ a : Addr, handleDatagram (utf8Encode (jsonDumps senderPayload)) a
        = .ok (.announce senderPayload a))
    ∧ senderPayloadFields.lookup "node_id" = some (.str "TEST_SENDER")
    ∧ senderPayloadFields.lookup "agents" = some (.num 1) :=
  ⟨rfl, List.mem_cons_self _ _, rfl, rfl, fun _ => rfl, rfl, rfl⟩

/-- Claim C6, counterexample: the announcer does not transmit more
than one datagram per run. -/
theorem c6_sender_not_periodic : ¬1 < senderSends.length := by
  decide

/-- Claim C6, amended: the sender (`test_sender.py`) transmits exactly
one announcement datagram per run and then terminates; it has no
announce loop. -/
theorem c6_sender_single_shot :
    senderSends.length = 1 ∧ senderOps.length = 2 :=
  ⟨rfl, rfl⟩

/-- Claim C7: in the sender's socket-operation trace, every `sendto`
is strictly preceded by setting the multicast TTL option to 2 — no
datagram leaves the socket before `IP_MULTICAST_TTL` is configured. -/
theorem c7_ttl_before_send :
    ∀ (i : Nat) (d : Bytes) (dst : Addr), senderOps.get? i = some (.sendto d dst) →
      ∃ j, j < i ∧ senderOps.get? j = some (.setsockopt .multicastTTL 2) := by
  intro i d dst h
  match i, h with
  | 0, h => simp [senderOps] at h
  | 1, h => exact ⟨0, by omega, rfl⟩
  | n + 2, h => simp [senderOps] at h

/-- Claim C7, witness: the sole send sits at index 1, after the TTL
option at index 0. -/
theorem c7_ttl_before_send_witness :
    ∃ j, j < 1 ∧ senderOps.get? j = some (.setsockopt .multicastTTL 2) :=
  c7_ttl_before_send 1 (utf8Encode (jsonDumps senderPayload)) ⟨MCAST_GRP, MCAST_PORT⟩ rfl

/-- Claim C8: any datagram that parses as any valid JSON value at all
— objects without the expected fields, bare numbers, strings — is
reported by both listeners as a discovered-node announcement; nothing
beyond JSON validity is checked. -/
theorem c8_no_schema_validation (data : Bytes) (a : Addr) (s : String) (v : Json)
    (h1 : utf8Decode data = some s) (h2 : jsonLoads s = some v) :
    handleDatagram data a = .ok (.announce v a)
    ∧ (discoveryMain (.ok ()) [.datagram data a]).events = [.announce v a]
    ∧ (broadcastMain (.ok ()) [.datagram data a]).events = [.announce v a] := by
  have hh := handleDatagram_json (a := a) h1 h2
  refine ⟨hh, ?_, ?_⟩ <;> simp [discoveryMain, broadcastMain, runLoop, hh]

/-- Claim C8, witness: the single byte `0x35` is the bare JSON number
`5`, no object at all, and both listeners report it as a discovered
node. -/
theorem c8_no_schema_validation_witness :
    handleDatagram [0x35] ⟨"10.9.9.9", 1234⟩
      = .ok (.announce (.num 5) ⟨"10.9.9.9", 1234⟩) :=
  (c8_no_schema_validation [0x35] ⟨"10.9.9.9", 1234⟩ "5" (.num 5) rfl rfl).1

/-- Claim C9: the listeners diverge on bind failure: the broadcast
listener catches the `OSError`, prints a diagnostic, and returns
normally, while the discovery listener propagates the `OSError`
uncaught and prints nothing of its own. -/
theorem c9_bind_failure_divergence (m : String) (script : List RecvEvent) :
    (broadcastMain (.error m) script).outcome = .returned
    ∧ (broadcastMain (.error m) script).diag ≠ []
    ∧ (discoveryMain (.error m) script).outcome = .raised (.osError m)
    ∧ (discoveryMain (.error m) script).diag = [] := by
  refine ⟨rfl, ?_, rfl, rfl⟩
  show broadcastBindDiag m ≠ []
  rw [broadcastBindDiag]
  exact List.cons_ne_nil _ _

/-- Claim C10: the issue-creation loop consumes its record list
strictly sequentially with exactly one `create_issue` attempt per
record and no retry: the call list equals the record titles in order
whatever the client answers, each record is counted once as success or
failure, the tracker holds exactly the granted issues in order, and a
failing record only increments the failure count and logs its one call
before the loop moves to the next record. -/
theorem c10_issue_loop_sequential
    (api : String → String → List String → Except String IssueHandle) (prs : List PR) :
    (createIssuesLoop api prs ⟨0, 0, [], []⟩).calls = prs.map issueTitle
    ∧ (createIssuesLoop api prs ⟨0, 0, [], []⟩).created
        + (createIssuesLoop api prs ⟨0, 0, [], []⟩).failed = prs.length
    ∧ (createIssuesLoop api prs ⟨0, 0, [], []⟩).createdIssues
        = prs.filterMap
            (fun pr => (api (issueTitle pr) (createIssueBody pr) pr.labels).toOption)
    ∧ (∀ (pr : PR) (rest : List PR) (st : IssueRun) (e : String),
        api (issueTitle pr) (createIssueBody pr) pr.labels = .error e →
        createIssuesLoop api (pr :: rest) st
          = createIssuesLoop api rest
              ⟨st.created, st.failed + 1, st.createdIssues, st.calls ++ [issueTitle pr]⟩) := by
  refine ⟨?_, ?_, ?_, ?_⟩
  · simpa using createIssuesLoop_calls api prs ⟨0, 0, [], []⟩
  · simpa using createIssuesLoop_counts api prs ⟨0, 0, [], []⟩
  · simpa using createIssuesLoop_issues api prs ⟨0, 0, [], []⟩
  · intro pr rest st e h
    simp [createIssuesLoop, h]

/-- Claim C10, witness: with a client that rejects every call, the
loop still walks its whole list — here the first record of `PRS` —
counting one failure and making exactly one call. -/
theorem c10_issue_loop_sequential_witness :
    createIssuesLoop (fun _ _ _ => .error "403 rate limited")
        [⟨2, "Event System Enhancements", "0.1", "High", "Small", "1 week",
          "Enhance event system with production-ready features including validation, trace propagation, metrics, and improved error handling.",
          [], [], ["enhancement", "priority-high"]⟩] ⟨0, 0, [], []⟩
      = createIssuesLoop (fun _ _ _ => .error "403 rate limited") []
          ⟨0, 1, [], ["PR #2: Event System Enhancements"]⟩ :=
  (c10_issue_loop_sequential (fun _ _ _ => .error "403 rate limited") []).2.2.2
    ⟨2, "Event System Enhancements", "0.1", "High", "Small", "1 week",
      "Enhance event system with production-ready features including validation, trace propagation, metrics, and improved error handling.",
      [], [], ["enhancement", "priority-high"]⟩ [] ⟨0, 0, [], []⟩ "403 rate limited" rfl

end CortexOS
